import Mathlib

/-!
A shallow embedding of the telnet frame decoder of the orbbs repository
(`src/telnet/frame.rs`, `src/telnet/connection.rs`) together with the
historical snapshot decoder kept in `src/connection.rs`.

Byte buffers (`bytes::BytesMut`) are modelled as `List Nat`; every Rust
function that mutates the buffer is modelled as a function returning the
produced value together with the buffer contents left behind by the call.
-/

/-- The frame type of `src/telnet/frame.rs` (`enum TelnetFrame`). -/
inductive TelnetFrame where
  | IAC (bytes : List Nat)
  | CSI (bytes : List Nat)
  | Data (bytes : List Nat)
  | Next
  deriving DecidableEq

/-- Rust `Iterator::position`: the index of the first element satisfying `p`. -/
def position (p : Nat → Bool) : List Nat → Option Nat
  | [] => none
  | a :: rest => if p a then some 0 else (position p rest).map (· + 1)

/-- Rust `buffer.windows(2).position(|p| p == &[0xFF, 0xF0])`: the index of the
first two-byte window equal to the subnegotiation terminator `IAC SE`. -/
def findTerm : List Nat → Option Nat
  | a :: b :: rest =>
      if a = 0xFF ∧ b = 0xF0 then some 0
      else (findTerm (b :: rest)).map (· + 1)
  | _ => none

/-- The CSI final-byte test `(0x40..=0x7E).contains(&b)` from `parse_csi`. -/
def isFinal (b : Nat) : Bool := decide (0x40 ≤ b ∧ b ≤ 0x7E)

/-- The frame start-byte test `b == &0xFF || b == &0x1B` from `parse_data`. -/
def isStart (b : Nat) : Bool := decide (b = 0xFF ∨ b = 0x1B)

/-- The subnegotiation terminator `0xFF 0xF0` occurs at index `i` of `l`. -/
def termAt (l : List Nat) (i : Nat) : Prop :=
  l.get? i = some 0xFF ∧ l.get? (i + 1) = some 0xF0

instance (l : List Nat) (i : Nat) : Decidable (termAt l i) := by
  unfold termAt; infer_instance

namespace TelnetFrame

/-- `TelnetFrame::parse_iac` of `src/telnet/frame.rs`: matches on
`(buffer.get(0), buffer.get(1), buffer.get(2))`; the escaped-introducer
branch advances 2 bytes, the subnegotiation branch scans for the first
`0xFF 0xF0` window and splits after it, the generic branch splits 3 bytes. -/
def parse_iac (buffer : List Nat) : Option TelnetFrame × List Nat :=
  match buffer with
  | 0xFF :: 0xFF :: _ => (some (.Data [0xFF]), buffer.drop 2)
  | 0xFF :: 0xFA :: _ =>
      match findTerm buffer with
      | some i => (some (.IAC (buffer.take (i + 2))), buffer.drop (i + 2))
      | none => (none, buffer)
  | 0xFF :: _ :: _ :: _ => (some (.IAC (buffer.take 3)), buffer.drop 3)
  | _ => (none, buffer)

/-- `TelnetFrame::parse_csi` of `src/telnet/frame.rs`: requires the buffer to
start with `0x1B '['`, then looks for the first final byte from index 2 on
(`iter().skip(2).position(...)`) and splits `i + 3` bytes when found. -/
def parse_csi (buffer : List Nat) : Option TelnetFrame × List Nat :=
  match buffer with
  | 0x1B :: 0x5B :: rest =>
      match position isFinal rest with
      | some i => (some (.CSI (buffer.take (i + 3))), buffer.drop (i + 3))
      | none => (none, buffer)
  | _ => (none, buffer)

/-- `TelnetFrame::parse_data` of `src/telnet/frame.rs`: finds the first
`0xFF`/`0x1B`; position 0 is no match, a later position splits the data run,
no position at all drains the whole (non-empty) buffer. -/
def parse_data (buffer : List Nat) : Option TelnetFrame × List Nat :=
  match position isStart buffer with
  | some 0 => (none, buffer)
  | some i => (some (.Data (buffer.take i)), buffer.drop i)
  | none =>
      if buffer = [] then (none, buffer)
      else (some (.Data buffer), [])

end TelnetFrame

/-- The decode chain of `Connection::next_frame` in `src/telnet/connection.rs`:
`parse_iac(..).or_else(|| parse_csi(..)).or_else(|| parse_data(..))`, each
attempt receiving the buffer left behind by the previous one. -/
def decode (buffer : List Nat) : Option TelnetFrame × List Nat :=
  match TelnetFrame.parse_iac buffer with
  | (some f, b) => (some f, b)
  | (none, b1) =>
      match TelnetFrame.parse_csi b1 with
      | (some f, b) => (some f, b)
      | (none, b2) => TelnetFrame.parse_data b2

/-- Outcome of the single `stream.read_buf` call inside `next_frame`:
`ok bytes` appends `bytes` to the buffer (zero bytes means the peer closed
the socket), `err` is a failed read. -/
inductive ReadResult where
  | ok (bytes : List Nat)
  | err
  deriving DecidableEq

/-- `Connection::next_frame` of `src/telnet/connection.rs`, with the socket
read modelled by a `ReadResult` oracle.  Returns the delivered frame option,
the resulting buffer, and whether a socket read was performed. -/
def next_frame (buffer : List Nat) (read : ReadResult) :
    Option TelnetFrame × List Nat × Bool :=
  match decode buffer with
  | (some frame, b) => (some frame, b, false)
  | (none, b) =>
      match read with
      | .ok [] => (none, b, true)
      | .ok (c :: cs) => (some .Next, b ++ c :: cs, true)
      | .err => (none, b, true)

namespace Legacy

/-- The probe loop of Rust `core::slice::binary_search_by`: keeps the
half-open interval `[left, right)`, probes `left + (right - left) / 2`, and
returns early on an equal element.  The interval shrinks at every probe, so
`l.length` units of fuel always suffice. -/
def binarySearchGo (l : List Nat) (target : Nat) (left right : Nat) :
    Nat → Except Nat Nat
  | 0 => .error left
  | fuel + 1 =>
      if left < right then
        let mid := left + (right - left) / 2
        let e := (l.get? mid).getD 0
        if e < target then binarySearchGo l target (mid + 1) right fuel
        else if target < e then binarySearchGo l target left mid fuel
        else .ok mid
      else .error left

/-- Rust `slice::binary_search(&target)` as called by the historical
`parse_iac` on the (unsorted) buffer. -/
def binary_search (l : List Nat) (target : Nat) : Except Nat Nat :=
  binarySearchGo l target 0 l.length l.length

/-- `TelnetFrame::parse_iac` of the historical snapshot `src/connection.rs`:
identical to the current one except in the subnegotiation branch, which runs
`buffer.binary_search(&0xF0)` and splits `i + 1` bytes on `Ok(i)`. -/
def parse_iac (buffer : List Nat) : Option TelnetFrame × List Nat :=
  match buffer with
  | 0xFF :: 0xFF :: _ => (some (.Data [0xFF]), buffer.drop 2)
  | 0xFF :: 0xFA :: _ =>
      match binary_search buffer 0xF0 with
      | .ok i => (some (.IAC (buffer.take (i + 1))), buffer.drop (i + 1))
      | .error _ => (none, buffer)
  | 0xFF :: _ :: _ :: _ => (some (.IAC (buffer.take 3)), buffer.drop 3)
  | _ => (none, buffer)

end Legacy

theorem position_eq_none {p : Nat → Bool} {l : List Nat} (h : ∀ b ∈ l, p b = false) :
    position p l = none := by
  induction l with
  | nil => rfl
  | cons a rest ih =>
      have ha : p a = false := h a (by simp)
      have hr := ih (fun b hb => h b (by simp [hb]))
      simp [position, ha, hr]

theorem position_append_first {p : Nat → Bool} {ps : List Nat}
    (h : ∀ b ∈ ps, p b = false) {fin : Nat} (hf : p fin = true) (rest : List Nat) :
    position p (ps ++ fin :: rest) = some ps.length := by
  induction ps with
  | nil => simp [position, hf]
  | cons a t ih =>
      have ha : p a = false := h a (by simp)
      have ht := ih (fun b hb => h b (by simp [hb]))
      simp [position, ha, ht]

theorem termAt_cons_succ (a : Nat) (l : List Nat) (i : Nat) :
    termAt (a :: l) (i + 1) ↔ termAt l i := by
  simp [termAt]

theorem findTerm_eq_none {l : List Nat} (h : ∀ i, ¬ termAt l i) : findTerm l = none := by
  induction l with
  | nil => rfl
  | cons a t ih =>
      cases t with
      | nil => rfl
      | cons b rest =>
          have h0 : ¬ (a = 0xFF ∧ b = 0xF0) := by simpa [termAt] using h 0
          have ht : ∀ i, ¬ termAt (b :: rest) i := fun i hi =>
            h (i + 1) ((termAt_cons_succ a (b :: rest) i).mpr hi)
          simp [findTerm, h0, ih ht]

theorem findTerm_append_term {pre : List Nat} (h : ∀ i, ¬ termAt pre i) (post : List Nat) :
    findTerm (pre ++ 0xFF :: 0xF0 :: post) = some pre.length := by
  induction pre with
  | nil => simp [findTerm]
  | cons a t ih =>
      cases t with
      | nil => simp [findTerm]
      | cons b t2 =>
          have h0 : ¬ (a = 0xFF ∧ b = 0xF0) := by simpa [termAt] using h 0
          have ht : ∀ i, ¬ termAt (b :: t2) i := fun i hi =>
            h (i + 1) ((termAt_cons_succ a (b :: t2) i).mpr hi)
          have hr : findTerm (b :: (t2 ++ 0xFF :: 0xF0 :: post)) = some (t2.length + 1) := by
            simpa using ih ht
          simp [findTerm, h0, hr]

theorem parse_iac_not_iac {buffer : List Nat} (h : ∀ rest, buffer ≠ 0xFF :: rest) :
    TelnetFrame.parse_iac buffer = (none, buffer) := by
  rw [TelnetFrame.parse_iac.eq_def]
  split <;> first | rfl | exact absurd rfl (h _)

theorem parse_iac_three (v o : Nat) (rest : List Nat) (h1 : v ≠ 0xFF) (h2 : v ≠ 0xFA) :
    TelnetFrame.parse_iac (0xFF :: v :: o :: rest) =
      (some (.IAC [0xFF, v, o]), rest) := by
  rw [TelnetFrame.parse_iac.eq_def]
  split
  · simp_all
  · simp_all
  · simp
  · rename_i hno
    exact absurd rfl (hno v o rest)

theorem parse_iac_subneg (mid post : List Nat)
    (h : ∀ i, ¬ termAt (0xFF :: 0xFA :: mid) i) :
    TelnetFrame.parse_iac (0xFF :: 0xFA :: (mid ++ 0xFF :: 0xF0 :: post)) =
      (some (.IAC (0xFF :: 0xFA :: (mid ++ [0xFF, 0xF0]))), post) := by
  have hft : findTerm (0xFF :: 0xFA :: (mid ++ 0xFF :: 0xF0 :: post))
      = some (mid.length + 2) := by simpa using findTerm_append_term h post
  have hidx : mid.length + 2 + 2 = (0xFF :: 0xFA :: mid : List Nat).length + 2 := by
    simp only [List.length_cons]
  have htake : List.take (mid.length + 2 + 2) (0xFF :: 0xFA :: (mid ++ 0xFF :: 0xF0 :: post))
      = 0xFF :: 0xFA :: (mid ++ [0xFF, 0xF0]) := by
    rw [hidx]
    show List.take _ ((0xFF :: 0xFA :: mid) ++ 0xFF :: 0xF0 :: post) = _
    rw [List.take_append 2]
    simp
  have hdrop : List.drop (mid.length + 2 + 2) (0xFF :: 0xFA :: (mid ++ 0xFF :: 0xF0 :: post))
      = post := by
    rw [hidx]
    show List.drop _ ((0xFF :: 0xFA :: mid) ++ 0xFF :: 0xF0 :: post) = _
    rw [List.drop_append 2]
    rfl
  simp [TelnetFrame.parse_iac, hft, htake, hdrop]

theorem parse_iac_subneg_pending (rest : List Nat)
    (h : ∀ i, ¬ termAt (0xFF :: 0xFA :: rest) i) :
    TelnetFrame.parse_iac (0xFF :: 0xFA :: rest) = (none, 0xFF :: 0xFA :: rest) := by
  simp [TelnetFrame.parse_iac, findTerm_eq_none h]

theorem parse_csi_not_csi {buffer : List Nat}
    (h : ∀ rest, buffer ≠ 0x1B :: 0x5B :: rest) :
    TelnetFrame.parse_csi buffer = (none, buffer) := by
  rw [TelnetFrame.parse_csi.eq_def]
  split <;> first | rfl | exact absurd rfl (h _)

theorem parse_csi_found (ps : List Nat) (h : ∀ b ∈ ps, isFinal b = false)
    (fin : Nat) (hf : isFinal fin = true) (rest : List Nat) :
    TelnetFrame.parse_csi (0x1B :: 0x5B :: (ps ++ fin :: rest)) =
      (some (.CSI (0x1B :: 0x5B :: (ps ++ [fin]))), rest) := by
  have hp : position isFinal (ps ++ fin :: rest) = some ps.length :=
    position_append_first h hf rest
  have hidx : ps.length + 3 = (0x1B :: 0x5B :: ps : List Nat).length + 1 := by
    simp only [List.length_cons]
  have htake : List.take (ps.length + 3) (0x1B :: 0x5B :: (ps ++ fin :: rest))
      = 0x1B :: 0x5B :: (ps ++ [fin]) := by
    rw [hidx]
    show List.take _ ((0x1B :: 0x5B :: ps) ++ fin :: rest) = _
    rw [List.take_append 1]
    simp
  have hdrop : List.drop (ps.length + 3) (0x1B :: 0x5B :: (ps ++ fin :: rest)) = rest := by
    rw [hidx]
    show List.drop _ ((0x1B :: 0x5B :: ps) ++ fin :: rest) = _
    rw [List.drop_append 1]
    rfl
  simp [TelnetFrame.parse_csi, hp, htake, hdrop]

theorem parse_csi_pending (tail : List Nat) (h : ∀ b ∈ tail, isFinal b = false) :
    TelnetFrame.parse_csi (0x1B :: 0x5B :: tail) = (none, 0x1B :: 0x5B :: tail) := by
  simp [TelnetFrame.parse_csi, position_eq_none h]

theorem parse_data_start (b : Nat) (t : List Nat) (hb : isStart b = true) :
    TelnetFrame.parse_data (b :: t) = (none, b :: t) := by
  simp [TelnetFrame.parse_data, position, hb]

theorem parse_data_all {d : List Nat} (hne : d ≠ []) (h : ∀ b ∈ d, isStart b = false) :
    TelnetFrame.parse_data d = (some (.Data d), []) := by
  simp [TelnetFrame.parse_data, position_eq_none h, hne]

theorem decode_eq_of_iac {buffer b : List Nat} {f : TelnetFrame}
    (h : TelnetFrame.parse_iac buffer = (some f, b)) : decode buffer = (some f, b) := by
  simp [decode, h]

theorem decode_eq_of_csi {buffer b : List Nat} {f : TelnetFrame}
    (h1 : TelnetFrame.parse_iac buffer = (none, buffer))
    (h2 : TelnetFrame.parse_csi buffer = (some f, b)) : decode buffer = (some f, b) := by
  simp [decode, h1, h2]

theorem decode_eq_of_data {buffer : List Nat} {r : Option TelnetFrame × List Nat}
    (h1 : TelnetFrame.parse_iac buffer = (none, buffer))
    (h2 : TelnetFrame.parse_csi buffer = (none, buffer))
    (h3 : TelnetFrame.parse_data buffer = r) : decode buffer = r := by
  simp [decode, h1, h2, h3]

/-- The buffer left behind by `n` successive decode calls. -/
def decodeIter : Nat → List Nat → List Nat
  | 0, b => b
  | n + 1, b => decodeIter n (decode b).2

theorem termAt_not_of_bounded {l : List Nat} (h : ∀ i, i < l.length → ¬ termAt l i) :
    ∀ i, ¬ termAt l i := by
  intro i hi
  rcases Nat.lt_or_ge i l.length with hlt | hge
  · exact h i hlt hi
  · rcases hi with ⟨h1, _⟩
    rw [List.get?_len_le hge] at h1
    cases h1

/-- Claim C2: a buffer starting with IAC SB whose first terminator window
`0xFF 0xF0` sits right after `mid` decodes to one Command frame spanning the
introducer through that first terminator inclusive; exactly those bytes are
removed and every byte after the terminator is left untouched. -/
theorem c2_subneg_first_terminator (mid post : List Nat)
    (h : ∀ i, i < mid.length + 2 → ¬ termAt (0xFF :: 0xFA :: mid) i) :
    decode (0xFF :: 0xFA :: (mid ++ 0xFF :: 0xF0 :: post)) =
      (some (.IAC (0xFF :: 0xFA :: (mid ++ [0xFF, 0xF0]))), post) := by
  have h' : ∀ i, ¬ termAt (0xFF :: 0xFA :: mid) i :=
    termAt_not_of_bounded (by simpa using h)
  exact decode_eq_of_iac (parse_iac_subneg mid post h')

theorem c2_subneg_first_terminator_witness :
    decode [0xFF, 0xFA, 0x18, 0x01, 0xFF, 0xF0, 0xFF, 0xF0, 0x41] =
      (some (.IAC [0xFF, 0xFA, 0x18, 0x01, 0xFF, 0xF0]), [0xFF, 0xF0, 0x41]) := by
  have hmain := c2_subneg_first_terminator [0x18, 0x01] [0xFF, 0xF0, 0x41] (by decide)
  simpa using hmain

/-- Claim C3 as stated is false: with verb byte 0xFF (a legal "any byte
value") the decoder takes the escaped-introducer branch, emits Data([0xFF])
and consumes two bytes instead of Command([0xFF,0xFF,0x00]) and three. -/
theorem c3_any_verb_cex :
    decode [0xFF, 0xFF, 0x00] = (some (.Data [0xFF]), [0x00]) ∧
    decode [0xFF, 0xFF, 0x00] ≠ (some (.IAC [0xFF, 0xFF, 0x00]), []) := by
  decide

theorem decode_three_byte (v o : Nat) (rest : List Nat)
    (h1 : v ≠ 0xFF) (h2 : v ≠ 0xFA) :
    decode (0xFF :: v :: o :: rest) = (some (.IAC [0xFF, v, o]), rest) :=
  decode_eq_of_iac (parse_iac_three v o rest h1 h2)

/-- Claim C3 amended: for a buffer of length at least 3 starting with 0xFF
whose verb byte is neither 0xFF nor 0xFA, decoding yields
Command([0xFF, verb, option]), consumes exactly those 3 bytes and leaves only
the bytes after index 3. -/
theorem c3_three_byte_command (v o : Nat) (rest : List Nat)
    (h1 : v ≠ 0xFF) (h2 : v ≠ 0xFA) :
    decode (0xFF :: v :: o :: rest) = (some (.IAC [0xFF, v, o]), rest) :=
  decode_three_byte v o rest h1 h2

theorem c3_three_byte_command_witness :
    decode [0xFF, 251, 1, 99] = (some (.IAC [0xFF, 251, 1]), [99]) :=
  c3_three_byte_command 251 1 [99] (by decide) (by decide)

/-- Claim C5: a CSI introducer followed by parameter bytes outside the final
range and then a first final byte decodes to a ControlEscape frame holding
exactly the introducer, parameters and final byte; the same prefix with no
final-range byte buffered decodes to Pending and consumes nothing. -/
theorem c5_csi_final_byte (ps : List Nat) (fin : Nat) (rest tail : List Nat)
    (hps : ∀ b ∈ ps, isFinal b = false) (hf : isFinal fin = true)
    (htail : ∀ b ∈ tail, isFinal b = false) :
    decode (0x1B :: 0x5B :: (ps ++ fin :: rest)) =
      (some (.CSI (0x1B :: 0x5B :: (ps ++ [fin]))), rest) ∧
    decode (0x1B :: 0x5B :: tail) = (none, 0x1B :: 0x5B :: tail) := by
  constructor
  · exact decode_eq_of_csi (parse_iac_not_iac (by intro r; simp))
      (parse_csi_found ps hps fin hf rest)
  · exact decode_eq_of_data (parse_iac_not_iac (by intro r; simp))
      (parse_csi_pending tail htail)
      (parse_data_start 0x1B (0x5B :: tail) (by simp [isStart]))

theorem c5_csi_final_byte_witness :
    decode [0x1B, 0x5B, 0x31, 0x3B, 0x32, 0x48, 0x07] =
      (some (.CSI [0x1B, 0x5B, 0x31, 0x3B, 0x32, 0x48]), [0x07]) ∧
    decode [0x1B, 0x5B, 0x31, 0x3B] = (none, [0x1B, 0x5B, 0x31, 0x3B]) := by
  have hmain := c5_csi_final_byte [0x31, 0x3B, 0x32] 0x48 [0x07] [0x31, 0x3B]
    (by decide) (by decide) (by decide)
  simpa using hmain

/-- Claim C6: a non-empty buffer containing neither 0xFF nor 0x1B decodes to
a Data frame holding the entire buffer and empties it; an empty buffer
decodes to Pending unchanged, stays empty under any number of decode calls,
and never yields a zero-length Data frame. -/
theorem c6_data_whole_buffer :
    (∀ d : List Nat, d ≠ [] → (∀ b ∈ d, b ≠ 0xFF ∧ b ≠ 0x1B) →
      decode d = (some (.Data d), [])) ∧
    decode [] = (none, []) ∧
    (∀ n, decodeIter n [] = []) := by
  refine ⟨fun d hne h => ?_, rfl, fun n => ?_⟩
  · rcases d with _ | ⟨a, t⟩
    · exact absurd rfl hne
    have ha := h a (by simp)
    refine decode_eq_of_data (parse_iac_not_iac ?_) (parse_csi_not_csi ?_)
      (parse_data_all hne ?_)
    · intro r hr
      rw [List.cons.injEq] at hr
      exact ha.1 hr.1
    · intro r hr
      rw [List.cons.injEq] at hr
      exact ha.2 hr.1
    · intro b hb
      simp [isStart, (h b hb).1, (h b hb).2]
  · induction n with
    | zero => rfl
    | succ m ih => simpa [decodeIter] using ih

theorem c6_data_whole_buffer_witness :
    decode [0x68, 0x69] = (some (.Data [0x68, 0x69]), []) :=
  c6_data_whole_buffer.1 [0x68, 0x69] (by decide) (by decide)

/-- Claim C7: a buffer starting with IAC SB that contains the terminator
window 0xFF 0xF0 nowhere decodes to Pending, not an error, consuming zero
bytes and leaving the buffer byte-for-byte unchanged. -/
theorem c7_subneg_no_terminator (rest : List Nat)
    (h : ∀ i, i < rest.length + 2 → ¬ termAt (0xFF :: 0xFA :: rest) i) :
    decode (0xFF :: 0xFA :: rest) = (none, 0xFF :: 0xFA :: rest) := by
  have h' : ∀ i, ¬ termAt (0xFF :: 0xFA :: rest) i :=
    termAt_not_of_bounded (by simpa using h)
  exact decode_eq_of_data (parse_iac_subneg_pending rest h')
    (parse_csi_not_csi (by intro r; simp))
    (parse_data_start 0xFF (0xFA :: rest) (by simp [isStart]))

theorem c7_subneg_no_terminator_witness :
    decode [0xFF, 0xFA, 0x18, 0xF0, 0xFF] = (none, [0xFF, 0xFA, 0x18, 0xF0, 0xFF]) :=
  c7_subneg_no_terminator [0x18, 0xF0, 0xFF] (by decide)

/-- Claim C10: a buffer whose first byte is ESC and whose second byte is
present but not the left bracket matches none of the three parsers, so decode
is Pending and consumes nothing, whatever bytes follow the two-byte prefix;
hence no sequence of decode calls ever consumes such a prefix. -/
theorem c10_esc_without_bracket_stalls (b : Nat) (rest : List Nat) (hb : b ≠ 0x5B) :
    TelnetFrame.parse_iac (0x1B :: b :: rest) = (none, 0x1B :: b :: rest) ∧
    TelnetFrame.parse_csi (0x1B :: b :: rest) = (none, 0x1B :: b :: rest) ∧
    TelnetFrame.parse_data (0x1B :: b :: rest) = (none, 0x1B :: b :: rest) ∧
    decode (0x1B :: b :: rest) = (none, 0x1B :: b :: rest) := by
  have hiac : TelnetFrame.parse_iac (0x1B :: b :: rest) = (none, 0x1B :: b :: rest) :=
    parse_iac_not_iac (by intro r; simp)
  have hcsi : TelnetFrame.parse_csi (0x1B :: b :: rest) = (none, 0x1B :: b :: rest) := by
    refine parse_csi_not_csi ?_
    intro r hr
    rw [List.cons.injEq, List.cons.injEq] at hr
    exact hb hr.2.1
  have hdata : TelnetFrame.parse_data (0x1B :: b :: rest) = (none, 0x1B :: b :: rest) :=
    parse_data_start 0x1B (b :: rest) (by simp [isStart])
  exact ⟨hiac, hcsi, hdata, decode_eq_of_data hiac hcsi hdata⟩

theorem c10_esc_without_bracket_stalls_witness :
    decode [0x1B, 0x41, 0x42] = (none, [0x1B, 0x41, 0x42]) :=
  (c10_esc_without_bracket_stalls 0x41 [0x42] (by decide)).2.2.2

/-- A single parse attempt on `buffer` either reports no match leaving the
buffer untouched, or returns a frame after removing a non-empty prefix,
leaving the remaining suffix byte-for-byte unchanged. -/
def consumesSound (P : List Nat → Option TelnetFrame × List Nat)
    (buffer : List Nat) : Prop :=
  ((P buffer).1 = none → (P buffer).2 = buffer) ∧
  (∀ f, (P buffer).1 = some f → ∃ p, p ≠ [] ∧ buffer = p ++ (P buffer).2)

theorem parse_iac_sound (buffer : List Nat) :
    consumesSound TelnetFrame.parse_iac buffer := by
  unfold consumesSound
  rw [TelnetFrame.parse_iac.eq_def]
  split
  · exact ⟨by simp, fun f hf => ⟨[0xFF, 0xFF], by simp, by simp⟩⟩
  · rename_i t
    cases hft : findTerm (0xFF :: 0xFA :: t) with
    | none => simp [hft]
    | some i =>
        refine ⟨by simp [hft], fun f hf => ?_⟩
        refine ⟨(0xFF :: 0xFA :: t).take (i + 2), ?_, ?_⟩
        · simp [List.take_eq_nil_iff]
        · simp only [hft]
          exact (List.take_append_drop (i + 2) _).symm
  · rename_i a c t h1 h2
    refine ⟨by simp, fun f hf => ⟨(0xFF :: a :: c :: t).take 3, by simp, ?_⟩⟩
    exact (List.take_append_drop 3 _).symm
  · exact ⟨fun _ => rfl, fun f hf => by simp at hf⟩

theorem parse_csi_sound (buffer : List Nat) :
    consumesSound TelnetFrame.parse_csi buffer := by
  unfold consumesSound
  rw [TelnetFrame.parse_csi.eq_def]
  split
  · rename_i rest
    cases hp : position isFinal rest with
    | none => simp [hp]
    | some i =>
        refine ⟨by simp [hp], fun f hf => ?_⟩
        refine ⟨(0x1B :: 0x5B :: rest).take (i + 3), ?_, ?_⟩
        · simp [List.take_eq_nil_iff]
        · simp only [hp]
          exact (List.take_append_drop (i + 3) _).symm
  · exact ⟨fun _ => rfl, fun f hf => by simp at hf⟩

theorem position_ne_nil {p : Nat → Bool} {l : List Nat} {i : Nat}
    (h : position p l = some i) : l ≠ [] := by
  intro he
  subst he
  cases h

theorem parse_data_sound (buffer : List Nat) :
    consumesSound TelnetFrame.parse_data buffer := by
  unfold consumesSound
  rw [TelnetFrame.parse_data.eq_def]
  split
  · exact ⟨fun _ => rfl, fun f hf => by simp at hf⟩
  · rename_i i hi0 heq
    refine ⟨by simp, fun f hf => ?_⟩
    refine ⟨buffer.take i, ?_, (List.take_append_drop i _).symm⟩
    have hne := position_ne_nil heq
    simp [List.take_eq_nil_iff, hne]
    intro hcontra
    exact hi0 hcontra
  · rename_i heq
    split
    · exact ⟨fun _ => rfl, fun f hf => by simp at hf⟩
    · rename_i hne
      exact ⟨by simp, fun f hf => ⟨buffer, hne, by simp⟩⟩

theorem decode_sound (buffer : List Nat) : consumesSound decode buffer := by
  obtain ⟨hi1, hi2⟩ := parse_iac_sound buffer
  obtain ⟨hc1, hc2⟩ := parse_csi_sound buffer
  obtain ⟨hd1, hd2⟩ := parse_data_sound buffer
  rcases hif : TelnetFrame.parse_iac buffer with ⟨fo, b1⟩
  cases fo with
  | some f =>
      have hdec : decode buffer = (some f, b1) := decode_eq_of_iac hif
      refine ⟨by simp [hdec], fun g hg => ?_⟩
      rw [hdec]
      rw [hif] at hi2
      simpa using hi2 f rfl
  | none =>
      have hb1 : b1 = buffer := by rw [hif] at hi1; exact hi1 rfl
      rw [hb1] at hif
      rcases hcf : TelnetFrame.parse_csi buffer with ⟨co, b2⟩
      cases co with
      | some f =>
          have hdec : decode buffer = (some f, b2) := decode_eq_of_csi hif hcf
          refine ⟨by simp [hdec], fun g hg => ?_⟩
          rw [hdec]
          rw [hcf] at hc2
          simpa using hc2 f rfl
      | none =>
          have hb2 : b2 = buffer := by rw [hcf] at hc1; exact hc1 rfl
          rw [hb2] at hcf
          have hdec : decode buffer = TelnetFrame.parse_data buffer :=
            decode_eq_of_data hif hcf rfl
          exact ⟨fun h => by rw [hdec] at h ⊢; exact hd1 h,
            fun g hg => by rw [hdec] at hg ⊢; exact hd2 g hg⟩

/-- Claim C1: each decode attempt (parse_iac, parse_csi, parse_data, and the
combined decode chain) either returns a frame after removing exactly a
non-empty matched prefix from the head of the buffer, leaving the suffix
byte-for-byte unchanged, or reports no match with the buffer completely
unchanged; no call partially consumes bytes on a no-match result. -/
theorem c1_no_partial_consumption (buffer : List Nat) :
    consumesSound TelnetFrame.parse_iac buffer ∧
    consumesSound TelnetFrame.parse_csi buffer ∧
    consumesSound TelnetFrame.parse_data buffer ∧
    consumesSound decode buffer :=
  ⟨parse_iac_sound buffer, parse_csi_sound buffer, parse_data_sound buffer,
    decode_sound buffer⟩

theorem c1_no_partial_consumption_witness :
    (∃ p, p ≠ [] ∧ [0xFF, 0xFF, 0x07] = p ++ (decode [0xFF, 0xFF, 0x07]).2) ∧
    (TelnetFrame.parse_csi [0xFF, 0xFF, 0x07]).2 = [0xFF, 0xFF, 0x07] := by
  constructor
  · exact (c1_no_partial_consumption [0xFF, 0xFF, 0x07]).2.2.2.2
      (.Data [0xFF]) (by decide)
  · exact (c1_no_partial_consumption [0xFF, 0xFF, 0x07]).2.1.1 (by decide)

/-- Claim C8: when the buffered decode yields a frame, next_frame delivers it
immediately without a socket read; on Pending one read happens, after which a
zero-byte read and a read error both surface as end-of-stream, and a positive
read surfaces the sentinel Next frame with the buffer grown. -/
theorem c8_next_frame_read_policy (buffer : List Nat) :
    (∀ f b r, decode buffer = (some f, b) → next_frame buffer r = (some f, b, false)) ∧
    (∀ b, decode buffer = (none, b) →
      next_frame buffer (.ok []) = (none, b, true) ∧
      next_frame buffer .err = (none, b, true) ∧
      ∀ c cs, next_frame buffer (.ok (c :: cs)) = (some .Next, b ++ c :: cs, true)) := by
  constructor
  · intro f b r h
    simp [next_frame, h]
  · intro b h
    exact ⟨by simp [next_frame, h], by simp [next_frame, h],
      fun c cs => by simp [next_frame, h]⟩

theorem c8_next_frame_read_policy_witness :
    next_frame [] (.ok [0x07, 0x08]) = (some .Next, [0x07, 0x08], true) ∧
    next_frame [0x41] .err = (some (.Data [0x41]), [], false) := by
  constructor
  · exact ((c8_next_frame_read_policy []).2 [] (by decide)).2.2 0x07 [0x08]
  · exact (c8_next_frame_read_policy [0x41]).1 (.Data [0x41]) [] .err (by decide)

/-- Well-formed raw bytes of a Command frame per the wire format: either a
3-byte command whose verb byte is neither the introducer nor
subnegotiation-begin, or a full subnegotiation block whose first terminator
window 0xFF 0xF0 is the one at its end. -/
def wfCommand (c : List Nat) : Prop :=
  (∃ v o, v ≠ 0xFF ∧ v ≠ 0xFA ∧ c = [0xFF, v, o]) ∨
  (∃ mid, c = 0xFF :: 0xFA :: (mid ++ [0xFF, 0xF0]) ∧
    ∀ i, i < mid.length + 2 → ¬ termAt (0xFF :: 0xFA :: mid) i)

/-- Well-formed raw bytes of a ControlEscape frame per the wire format: the
CSI introducer, parameter bytes outside the final range, then one final byte. -/
def wfCSI (c : List Nat) : Prop :=
  ∃ ps fin, (∀ b ∈ ps, isFinal b = false) ∧ isFinal fin = true ∧
    c = 0x1B :: 0x5B :: (ps ++ [fin])

/-- Well-formed raw bytes of a Data frame: non-empty and containing neither
0xFF nor 0x1B. -/
def wfData (d : List Nat) : Prop :=
  d ≠ [] ∧ ∀ b ∈ d, b ≠ 0xFF ∧ b ≠ 0x1B

theorem decode_wfData_append {d : List Nat} (hd : wfData d) :
    TelnetFrame.parse_iac d = (none, d) ∧ TelnetFrame.parse_csi d = (none, d) := by
  obtain ⟨hne, h⟩ := hd
  rcases d with _ | ⟨a, t⟩
  · exact absurd rfl hne
  have ha := h a (by simp)
  constructor
  · refine parse_iac_not_iac ?_
    intro r hr
    rw [List.cons.injEq] at hr
    exact ha.1 hr.1
  · refine parse_csi_not_csi ?_
    intro r hr
    rw [List.cons.injEq] at hr
    exact ha.2 hr.1

theorem decode_wfCommand {c rest : List Nat} (hc : wfCommand c) :
    decode (c ++ rest) = (some (.IAC c), rest) := by
  rcases hc with ⟨v, o, hv1, hv2, hceq⟩ | ⟨mid, hceq, hterm⟩
  · subst hceq
    exact decode_three_byte v o rest hv1 hv2
  · subst hceq
    have h' : ∀ i, ¬ termAt (0xFF :: 0xFA :: mid) i :=
      termAt_not_of_bounded (by simpa using hterm)
    have := decode_eq_of_iac (parse_iac_subneg mid rest h')
    simpa [List.append_assoc] using this

theorem decode_wfCSI {c rest : List Nat} (hc : wfCSI c) :
    decode (c ++ rest) = (some (.CSI c), rest) := by
  obtain ⟨ps, fin, hps, hf, hceq⟩ := hc
  subst hceq
  have := decode_eq_of_csi (parse_iac_not_iac (by intro r; simp))
    (parse_csi_found ps hps fin hf rest)
  simpa [List.append_assoc] using this

/-- Claim C4: concatenating the raw bytes of a well-formed Command frame, a
well-formed ControlEscape frame and a well-formed Data frame (the data
containing neither 0xFF nor 0x1B) and running the decode chain three times
reproduces exactly the three frames in order and empties the buffer. -/
theorem c4_roundtrip (cmd csi data : List Nat)
    (hc : wfCommand cmd) (he : wfCSI csi) (hd : wfData data) :
    decode (cmd ++ csi ++ data) = (some (.IAC cmd), csi ++ data) ∧
    decode (csi ++ data) = (some (.CSI csi), data) ∧
    decode data = (some (.Data data), []) := by
  refine ⟨?_, decode_wfCSI he, ?_⟩
  · have := @decode_wfCommand cmd (csi ++ data) hc
    simpa [List.append_assoc] using this
  · obtain ⟨hiac, hcsi⟩ := decode_wfData_append hd
    refine decode_eq_of_data hiac hcsi (parse_data_all hd.1 ?_)
    intro b hb
    simp [isStart, (hd.2 b hb).1, (hd.2 b hb).2]

theorem c4_roundtrip_witness :
    decode [0xFF, 253, 24, 0x1B, 0x5B, 0x31, 0x48, 0x68, 0x69] =
      (some (.IAC [0xFF, 253, 24]), [0x1B, 0x5B, 0x31, 0x48, 0x68, 0x69]) ∧
    decode [0x1B, 0x5B, 0x31, 0x48, 0x68, 0x69] =
      (some (.CSI [0x1B, 0x5B, 0x31, 0x48]), [0x68, 0x69]) ∧
    decode [0x68, 0x69] = (some (.Data [0x68, 0x69]), []) := by
  have hmain := c4_roundtrip [0xFF, 253, 24] [0x1B, 0x5B, 0x31, 0x48] [0x68, 0x69]
    (Or.inl ⟨253, 24, by decide, by decide, rfl⟩)
    ⟨[0x31], 0x48, by decide, by decide, rfl⟩
    ⟨by decide, by decide⟩
  simpa using hmain

theorem legacy_parse_iac_not_iac {buffer : List Nat}
    (h : ∀ rest, buffer ≠ 0xFF :: rest) :
    Legacy.parse_iac buffer = (none, buffer) := by
  rw [Legacy.parse_iac.eq_def]
  split <;> first | rfl | exact absurd rfl (h _)

theorem legacy_parse_iac_three (v o : Nat) (rest : List Nat)
    (h1 : v ≠ 0xFF) (h2 : v ≠ 0xFA) :
    Legacy.parse_iac (0xFF :: v :: o :: rest) = (some (.IAC [0xFF, v, o]), rest) := by
  rw [Legacy.parse_iac.eq_def]
  split
  · simp_all
  · simp_all
  · simp
  · rename_i hno
    exact absurd rfl (hno v o rest)

theorem parse_iac_short (b : Nat) (h1 : b ≠ 0xFF) (h2 : b ≠ 0xFA) :
    TelnetFrame.parse_iac [0xFF, b] = (none, [0xFF, b]) := by
  rw [TelnetFrame.parse_iac.eq_def]
  split <;> simp_all

theorem legacy_parse_iac_short (b : Nat) (h1 : b ≠ 0xFF) (h2 : b ≠ 0xFA) :
    Legacy.parse_iac [0xFF, b] = (none, [0xFF, b]) := by
  rw [Legacy.parse_iac.eq_def]
  split <;> simp_all

/-- Claim C9 fails: the two subnegotiation branches disagree.  On the buffer
[0xFF,0xFA,0xF0,0xFF,0xF0] the snapshot decoder's binary search probes the
middle element, index 2, finds 0xF0 there and splits three bytes, while the
current decoder scans for the first 0xFF 0xF0 window and splits all five. -/
theorem c9_snapshot_cex :
    Legacy.parse_iac [0xFF, 0xFA, 0xF0, 0xFF, 0xF0]
      = (some (.IAC [0xFF, 0xFA, 0xF0]), [0xFF, 0xF0]) ∧
    TelnetFrame.parse_iac [0xFF, 0xFA, 0xF0, 0xFF, 0xF0]
      = (some (.IAC [0xFF, 0xFA, 0xF0, 0xFF, 0xF0]), []) ∧
    Legacy.parse_iac [0xFF, 0xFA, 0xF0, 0xFF, 0xF0]
      ≠ TelnetFrame.parse_iac [0xFF, 0xFA, 0xF0, 0xFF, 0xF0] := by
  refine ⟨rfl, rfl, ?_⟩
  intro hcontra
  rw [show Legacy.parse_iac [0xFF, 0xFA, 0xF0, 0xFF, 0xF0]
      = (some (.IAC [0xFF, 0xFA, 0xF0]), [0xFF, 0xF0]) from rfl] at hcontra
  revert hcontra
  decide

/-- Claim C9 amended: on every buffer that does not start with the two bytes
0xFF 0xFA the snapshot parse_iac of src/connection.rs and the current
parse_iac of src/telnet/frame.rs return the same frame (or the same no
match) and leave the same buffer; their subnegotiation branches differ. -/
theorem c9_snapshot_agrees_off_subneg (buffer : List Nat)
    (h : ∀ rest, buffer ≠ 0xFF :: 0xFA :: rest) :
    Legacy.parse_iac buffer = TelnetFrame.parse_iac buffer := by
  rcases buffer with _ | ⟨a, _ | ⟨b, t⟩⟩
  · rfl
  · by_cases ha : a = 0xFF
    · subst ha; rfl
    · have hno : ∀ r, [a] ≠ 0xFF :: r := by
        intro r hr
        rw [List.cons.injEq] at hr
        exact ha hr.1
      rw [legacy_parse_iac_not_iac hno, parse_iac_not_iac hno]
  · by_cases ha : a = 0xFF
    · subst ha
      by_cases hb : b = 0xFF
      · subst hb
        simp [Legacy.parse_iac, TelnetFrame.parse_iac]
      · by_cases hb2 : b = 0xFA
        · subst hb2
          exact absurd rfl (h t)
        · rcases t with _ | ⟨c, t2⟩
          · rw [legacy_parse_iac_short b hb hb2, parse_iac_short b hb hb2]
          · rw [legacy_parse_iac_three b c t2 hb hb2, parse_iac_three b c t2 hb hb2]
    · have hno : ∀ r, a :: b :: t ≠ 0xFF :: r := by
        intro r hr
        rw [List.cons.injEq] at hr
        exact ha hr.1
      rw [legacy_parse_iac_not_iac hno, parse_iac_not_iac hno]

theorem c9_snapshot_agrees_off_subneg_witness :
    Legacy.parse_iac [0xFF, 0xFB, 0x05] = TelnetFrame.parse_iac [0xFF, 0xFB, 0x05] :=
  c9_snapshot_agrees_off_subneg [0xFF, 0xFB, 0x05] (by intro r hr; simp at hr)
